import Mathlib

/-!
Shallow embedding of `Objects/layoutobject.c` (the layout resolver for opaque
per-type extension memory).

Conventions of the embedding:
* type objects are identified by a `Nat` (the entry table only ever compares
  type pointers for identity, never dereferences them);
* `tp_cache` (the `Py_LAYOUT` slot) is a map `Nat → Option PyLayout`;
* byte addresses and offsets are `Int` (the C uses `int32_t` offsets and
  pointer arithmetic `&bytes[offset]`, modelled as `base + offset`);
* `sizeof(void*)` is 8 (the usual 64-bit build);
* machine integers (`uint32_t` ids, orders, shifts) are `Nat`; none of the
  verified properties depend on 32-bit wraparound, and the shifts/mods used
  agree with the C on these ranges;
* the C `while` loops that probe a hash table are unbounded; they are embedded
  with explicit fuel equal to the table size, which covers every slot once.
  A fuel-exhausted probe (`none`) corresponds exactly to a C loop that never
  terminates (every slot occupied), and is surfaced as a `diverge` outcome;
* an out-of-range table store in the C is a heap overrun (undefined behaviour
  that never becomes visible through the table, since every read is bounds
  checked); the embedding keeps the in-bounds table contents, so such a store
  is a `List.set` out of range, i.e. a no-op on the observable table.
-/

namespace LayoutModel

/-- Feature flags of a type that reserve memory in front of the object
(see `_layout_base`). -/
structure TypeFlags where
  managed_dict : Bool
  have_gc : Bool
  managed_weakref : Bool
  deriving DecidableEq

/-- The two values `ly_cast` can take: `_layout_cast_ordered` or
`_layout_cast_hash`. -/
inductive CastMode where
  | ordered
  | hashed
  deriving DecidableEq

/-- Embedding of `struct _layout_entry`: a borrowed type reference (`none` is `NULL`,
the cleared state) and a negative offset. -/
structure LayoutEntry where
  le_type : Option Nat
  le_offset : Int
  deriving DecidableEq

/-- Embedding of `struct _layout`.  `entries` is the variable-length tail of the
allocation; `Py_SIZE(layout)` is `entries.length`. -/
structure PyLayout where
  ly_allocsize : Int
  ly_extensionsize : Int
  ly_cast : CastMode
  ly_id : Nat
  ly_order : Nat
  ly_shift : Nat
  ly_search : Nat
  entries : List LayoutEntry
  deriving DecidableEq

instance : Inhabited PyLayout :=
  ⟨⟨0, 0, CastMode.ordered, 0, 0, 0, 0, []⟩⟩

/-- An object: its concrete type and its base address. -/
structure Obj where
  ob_type : Nat
  addr : Int
  deriving DecidableEq

/-- Embedding of `_layout_base`: bytes reserved in front of the object by runtime
features (managed dict, GC header, managed weakref), on a 64-bit build. -/
def layout_base (f : TypeFlags) : Int :=
  (if f.managed_dict then 8 else 0)
    + (if f.have_gc then 16 else 0)
    + (if f.managed_weakref then 8 else 0)

/-- One linear-probe step with wraparound, shared by every probing loop in
the C (`position++; if (position == size) position = 0;`). -/
def nextPos (len pos : Nat) : Nat :=
  if pos + 1 = len then 0 else pos + 1

/-- Iterated probe steps. -/
def stepN (len : Nat) : Nat → Nat → Nat
  | 0, pos => pos
  | n + 1, pos => stepN len n (nextPos len pos)

/-- The probe loop of `_layout_cast_hash`: scan up to `fuel` (= `ly_search`)
slots from `pos`, returning the stored offset at the first slot whose
`le_type` is exactly the requested type. -/
def probeLookup (entries : List LayoutEntry) (ty : Nat) : Nat → Nat → Option Int
  | 0, _ => none
  | fuel + 1, pos =>
    match entries[pos]? with
    | none => none
    | some e =>
      if e.le_type = some ty then some e.le_offset
      else probeLookup entries ty fuel (nextPos entries.length pos)

/-- The insertion probe of `_layout_fill_hash`: scan from `pos` for a free
slot (`le_type == NULL`), counting examined slots as the cost.  The C loop is
unbounded; fuel = table size covers every slot, and `none` marks the
infinite loop on a full table. -/
def probeFree (entries : List LayoutEntry) : Nat → Nat → Option (Nat × Nat)
  | 0, _ => none
  | fuel + 1, pos =>
    match entries[pos]? with
    | none => none
    | some e =>
      if e.le_type = none then some (1, pos)
      else
        match probeFree entries fuel (nextPos entries.length pos) with
        | none => none
        | some cp => some (cp.1 + 1, cp.2)

/-- Embedding of `_layout_cast_ordered`: index the table directly with the requested
type's own `ly_order`; fail if out of range or on an identity mismatch. -/
def layout_cast_ordered (layout tl : PyLayout) (obj : Obj) (ty : Nat) : Option Int :=
  match layout.entries[tl.ly_order]? with
  | none => none
  | some e => if e.le_type = some ty then some (obj.addr + e.le_offset) else none

/-- Embedding of `_layout_cast_hash`: home slot from the requested type's `ly_id` and the
container layout's `ly_shift`, then at most `ly_search` linear probes. -/
def layout_cast_hash (layout tl : PyLayout) (obj : Obj) (ty : Nat) : Option Int :=
  (probeLookup layout.entries ty layout.ly_search
      ((tl.ly_id >>> layout.ly_shift) % layout.entries.length)).map
    (fun off => obj.addr + off)

/-- Embedding of `PyObject_GetTypeData`: both the object's type and the requested type
must carry a layout; then dispatch through `ly_cast`. -/
def PyObject_GetTypeData (env : Nat → Option PyLayout) (obj : Obj) (ty : Nat) : Option Int :=
  match env obj.ob_type, env ty with
  | some ol, some tl =>
    (match ol.ly_cast with
     | CastMode.ordered => layout_cast_ordered ol tl obj ty
     | CastMode.hashed => layout_cast_hash ol tl obj ty)
  | _, _ => none

/-- Embedding of `PyType_GetTypeDataSize`. -/
def PyType_GetTypeDataSize (env : Nat → Option PyLayout) (ty : Nat) : Int :=
  match env ty with
  | none => 0
  | some l => l.ly_extensionsize

/-- Embedding of `PyDict_SetItem` on an insertion-ordered dict with `Nat` keys: replace in
place if the key is present, else append. -/
def dictSet {α : Type} (d : List (Nat × α)) (k : Nat) (v : α) : List (Nat × α) :=
  if (d.map Prod.fst).contains k then
    d.map (fun kv => if kv.1 = k then (k, v) else kv)
  else d ++ [(k, v)]

/-- Embedding of `_layout_collect`: map each base that has a layout to that layout
(dict keyed by the type, so duplicates collapse). -/
def layout_collect (env : Nat → Option PyLayout) (bases : List Nat) : List (Nat × PyLayout) :=
  bases.foldl
    (fun d b =>
      match env b with
      | some l => dictSet d b l
      | none => d)
    []

/-- Loop of `_layout_check_ordered`; `seen` plays the role of the `buf`
occupancy array (only orders below `items` are ever recorded in `buf`). -/
def check_ordered_go (items : Nat) : List PyLayout → List Nat → Bool
  | [], _ => true
  | l :: rest, seen =>
    if items ≤ l.ly_order ∨ seen.contains l.ly_order then false
    else check_ordered_go items rest (l.ly_order :: seen)

/-- Embedding of `_layout_check_ordered` over the dict's values. -/
def layout_check_ordered (vals : List PyLayout) : Bool :=
  check_ordered_go vals.length vals []

/-- One simulated insertion of `_layout_fast_hash` into the occupancy buffer
(`buf[p] > 0` is occupancy); returns the probe cost and the updated buffer.
Fuel as in `probeFree`. -/
def bufInsert (buf : List Bool) : Nat → Nat → Option (Nat × List Bool)
  | 0, _ => none
  | fuel + 1, pos =>
    match buf[pos]? with
    | none => none
    | some b =>
      if b = false then some (1, buf.set pos true)
      else
        match bufInsert buf fuel (nextPos buf.length pos) with
        | none => none
        | some cb => some (cb.1 + 1, cb.2)

/-- The inner `while (PyDict_Next(...))` pass of `_layout_fast_hash`: insert
each remaining id, totalling the probe cost. -/
def simPass (hsize shift : Nat) : List Bool → List Nat → Option Nat
  | _, [] => some 0
  | buf, i :: rest =>
    match bufInsert buf hsize ((i >>> shift) % hsize) with
    | none => none
    | some cb =>
      match simPass hsize shift cb.2 rest with
      | none => none
      | some cs => some (cb.1 + cs)

/-- The shift loop of `_layout_fast_hash`.  `remaining` is the state of the
`PyDict_Next` cursor `pos`: the C declares it once, outside the shift loop,
so after the first pass the dict iterator is exhausted and every later pass
places only the new id (an empty `remaining`).  `items` is
`PyObject_Size(layouts)`, re-read as a constant. -/
def fastHashGo (items hsize id : Nat) : Nat → Nat → List Nat → Nat → Nat → Option Nat
  | 0, _, _, best, _ => some best
  | fuel + 1, shift, remaining, best, bestCost =>
    let buf0 := (List.replicate hsize false).set ((id >>> shift) % hsize) true
    match simPass hsize shift buf0 remaining with
    | none => none
    | some cost =>
      if cost = items then some shift
      else if cost < bestCost then fastHashGo items hsize id fuel (shift + 1) [] shift cost
      else fastHashGo items hsize id fuel (shift + 1) [] best bestCost

/-- Embedding of `_layout_fast_hash` as written: 16 candidate shifts, `best = 0`,
`best_cost = hash_size`, with the stale-cursor behaviour described in
`fastHashGo`.  `none` models the C looping forever inside a full buffer. -/
def layout_fast_hash (ids : List Nat) (hsize id : Nat) : Option Nat :=
  fastHashGo ids.length hsize id 16 0 ids 0 hsize

/-- Modelled from the spec (hash-parameter search, spec section 4.5): the
same search, but every candidate shift re-simulates inserting the new key
first and then every ancestor key.  This is the behaviour the spec ascribes
to `_layout_fast_hash`; it differs from the code, whose dict cursor is
exhausted after the first shift. -/
def layout_fast_hash_spec (ids : List Nat) (hsize id : Nat) : Option Nat :=
  go 16 0 0 hsize
where
  go : Nat → Nat → Nat → Nat → Option Nat
    | 0, _, best, _ => some best
    | fuel + 1, shift, best, bestCost =>
      let buf0 := (List.replicate hsize false).set ((id >>> shift) % hsize) true
      match simPass hsize shift buf0 ids with
      | none => none
      | some cost =>
        if cost = ids.length then some shift
        else if cost < bestCost then go fuel (shift + 1) shift cost
        else go fuel (shift + 1) best bestCost

/-- Embedding of `_layout_fill_ordered`: place each dict item at index `ly_order` of that
item's layout, packing offsets `-base - running_size`.  Returns the table and
the final accumulated size (stored into `ly_allocsize`).  An out-of-range
index is the C heap overrun; the observable table is unchanged there. -/
def layout_fill_ordered (base : Int) (init : List LayoutEntry)
    (items : List (Nat × PyLayout)) : List LayoutEntry × Int :=
  items.foldl
    (fun acc kv =>
      let off := acc.2 + kv.2.ly_extensionsize
      (acc.1.set kv.2.ly_order ⟨some kv.1, -base - off⟩, off))
    (init, 0)

/-- State threaded by `_layout_fill_hash`: the entry table, `ly_search`
(initially 1, raised to the worst insertion cost) and the packed size. -/
structure HFillState where
  entries : List LayoutEntry
  search : Nat
  offset : Int
  deriving DecidableEq

/-- One `PyDict_Next` iteration of `_layout_fill_hash`: probe for a free
slot from the item's home position, raise `ly_search` to the insertion cost
if larger, pack the item's extension size, and store the entry. -/
def layout_fill_hash_step (hsize shift : Nat) (base : Int)
    (st : HFillState) (kv : Nat × PyLayout) : Option HFillState :=
  match probeFree st.entries hsize ((kv.2.ly_id >>> shift) % hsize) with
  | none => none
  | some cp =>
    let search := if st.search < cp.1 then cp.1 else st.search
    let off := st.offset + kv.2.ly_extensionsize
    some ⟨st.entries.set cp.2 ⟨some kv.1, -base - off⟩, search, off⟩

/-- Embedding of `_layout_fill_hash` on a cleared table of `hsize` slots (`ly_search`
starts at 1, as set by `_PyLayout_Create` before the fill). -/
def layout_fill_hash (hsize shift : Nat) (base : Int)
    (items : List (Nat × PyLayout)) : Option HFillState :=
  items.foldl
    (fun acc kv => acc.bind (fun st => layout_fill_hash_step hsize shift base st kv))
    (some ⟨List.replicate hsize ⟨none, 0⟩, 1, 0⟩)

/-- Outcome of `_PyLayout_Create`.  `noLayout` is the `NULL` return meaning
no layout is required; `diverge` marks the unbounded probe loops spinning on
a full table; `fatal` marks a crash (`NULL` dereference after a failed
allocation, or `memset(NULL, 0, (size_t)-1)`). -/
inductive CreateResult where
  | noLayout
  | made (l : PyLayout)
  | diverge
  | fatal
  deriving DecidableEq

/-- Embedding of `_PyLayout_Create`.  `dictOk`/`layoutOk` say whether `PyDict_New` (inside
`_layout_collect`) and `PyObject_NewVar` succeed.  Key points taken verbatim
from the C:
* `uint32_t order = PyObject_Size(layouts) + size>0?1:0;` parses as
  `(PyObject_Size(layouts) + size) > 0 ? 1 : 0`, so `order` is 0 or 1 and the
  table gets `order` (ordered) or `2*order` (hashed) slots;
* when `PyDict_New` fails, `_layout_collect` returns `NULL` and the caller
  does not check: `PyObject_Size(NULL)` is -1 (with an exception set), so
  `order = ((-1 + size) > 0)`; if that is 0 the function returns `NULL` ("no
  layout required"), otherwise `_layout_check_ordered(NULL)` does
  `malloc((size_t)-1)` and `memset(NULL, 0, (size_t)-1)` — a crash;
* when `PyObject_NewVar` fails the very next statement writes through the
  `NULL` result — a crash;
* if `size > 0` the half-initialised new layout is inserted into the dict
  before filling, so it is packed like an ancestor (reading only its
  already-set `ly_order` / `ly_id` / `ly_extensionsize`). -/
def PyLayout_Create (dictOk layoutOk : Bool) (env : Nat → Option PyLayout)
    (tf : Nat → TypeFlags) (ty : Nat) (bases : List Nat) (size : Int)
    (id : Nat) : CreateResult :=
  if dictOk = false then
    if (-1 : Int) + size > 0 then CreateResult.fatal else CreateResult.noLayout
  else
    let layouts := layout_collect env bases
    let order : Nat := if ((layouts.length : Int) + size > 0) then 1 else 0
    if order = 0 then CreateResult.noLayout
    else if layoutOk = false then CreateResult.fatal
    else if layout_check_ordered (layouts.map Prod.snd) then
      let nslots := order
      let self : PyLayout :=
        ⟨0, size, CastMode.ordered, id, order, 0, 1, List.replicate nslots ⟨none, 0⟩⟩
      let layouts2 := if 0 < size then dictSet layouts ty self else layouts
      let fr := layout_fill_ordered (layout_base (tf ty))
        (List.replicate nslots ⟨none, 0⟩) layouts2
      CreateResult.made { self with entries := fr.1, ly_allocsize := fr.2 }
    else
      let nslots := order * 2
      match layout_fast_hash (layouts.map (fun kv => kv.2.ly_id)) nslots id with
      | none => CreateResult.diverge
      | some shift =>
        let self : PyLayout :=
          ⟨0, size, CastMode.hashed, id, order, shift, 1, List.replicate nslots ⟨none, 0⟩⟩
        let layouts2 := if 0 < size then dictSet layouts ty self else layouts
        match layout_fill_hash nslots shift (layout_base (tf ty)) layouts2 with
        | none => CreateResult.diverge
        | some st =>
          CreateResult.made
            { self with entries := st.entries, ly_allocsize := st.offset,
                        ly_search := st.search }

end LayoutModel

namespace LayoutModel

/-! Concrete scenarios.

Types are numbered: `A = 0`, `B = 1`, `C = 2`, `D = 3`.  No type carries the
managed-dict/GC/weakref flags, so the reserved prefix is 0 bytes. -/

/-- An empty `tp_cache` environment: no type has a layout yet. -/
def env0 : Nat → Option PyLayout := fun _ => none

/-- All feature flags off: `_layout_base` returns 0. -/
def tf0 : Nat → TypeFlags := fun _ => ⟨false, false, false⟩

/-- The layout the code builds for type `A` (no bases, 8 requested bytes,
identity key 42): Ordered mode, a 1-slot table whose only slot is still
empty, because the fill step stored `A`'s entry at index `ly_order = 1`,
past the end of the table. -/
def laA : PyLayout := ⟨8, 8, CastMode.ordered, 42, 1, 0, 1, [⟨none, 0⟩]⟩

/-- Environment after `A`'s layout is installed. -/
def env1 : Nat → Option PyLayout := fun t => if t = 0 then some laA else none

/-- The layout the code builds for `B (A)` requesting 16 bytes (identity key
43): Hashed mode with a 2-slot table. -/
def laB16 : PyLayout :=
  ⟨24, 16, CastMode.hashed, 43, 1, 0, 1, [⟨some 0, -8⟩, ⟨some 1, -24⟩]⟩

/-- The layout the code builds for `B (A)` requesting 0 bytes (identity key
5), for the diamond scenario. -/
def laB : PyLayout := ⟨8, 0, CastMode.hashed, 5, 1, 0, 1, [⟨some 0, -8⟩, ⟨none, 0⟩]⟩

/-- Environment after `A` and `B`. -/
def env2 : Nat → Option PyLayout :=
  fun t => if t = 0 then some laA else if t = 1 then some laB else none

/-- The layout the code builds for `C (A)` requesting 0 bytes (identity key
6). -/
def laC : PyLayout := ⟨8, 0, CastMode.hashed, 6, 1, 1, 1, [⟨none, 0⟩, ⟨some 0, -8⟩]⟩

/-- Environment after `A`, `B` and `C`. -/
def env3 : Nat → Option PyLayout :=
  fun t =>
    if t = 0 then some laA else if t = 1 then some laB
    else if t = 2 then some laC else none

/-! Claim theorems: evaluations and general lemmas. -/

/-- Claim C1.  The claim fails on the code: for type `A` with no bases and 8
requested bytes the code does select Ordered mode, but because
`uint32_t order = PyObject_Size(layouts) + size>0?1:0` parses as
`(n + size) > 0 ? 1 : 0`, the table has one slot while `A`'s own
`ly_order` is 1, so the single entry is stored out of range, the table stays
empty, and `get_extension(a, A)` returns not-found instead of
`base - 8 - reserved_prefix(A)`.  Moreover for the chain `B (A)` the code
selects Hashed, not Ordered, because `A.ly_order = 1` is never below the
ancestor count 1. -/
theorem single_chain_layout_broken :
    PyLayout_Create true true env0 tf0 0 [] 8 42 = CreateResult.made laA
    ∧ laA.entries = [⟨none, 0⟩]
    ∧ PyObject_GetTypeData env1 ⟨0, 0⟩ 0 = none
    ∧ PyLayout_Create true true env1 tf0 1 [0] 16 43 = CreateResult.made laB16
    ∧ laB16.ly_cast = CastMode.hashed := by
  decide

/-- Claim C2.  The claim fails on the code: `B (A)` requesting 16 bytes has
n = 2 (one ancestor layout plus one slot for itself), so the claim requires
a 2-slot Ordered or 4-slot Hashed table; the code builds a Hashed table with
`2 * order = 2` slots, because `order` is the 0-or-1 value described in
`PyLayout_Create`. -/
theorem table_size_not_ancestor_count :
    PyLayout_Create true true env1 tf0 1 [0] 16 43 = CreateResult.made laB16
    ∧ laB16.ly_cast = CastMode.hashed
    ∧ laB16.entries.length = 2 := by
  decide

/-- Claim C4.  The claim fails on the code: with table size 4, new identity
key 0 and ancestor keys `[4, 8]`, shift 0 is imperfect (cost 5), and because
the `PyDict_Next` cursor `pos` is declared outside the shift loop, shifts
1..15 iterate an exhausted dict at cost 0, so shift 1 wins with cost 0 and
is returned.  The search the spec describes (re-simulating every key for
every shift) stops at shift 2, the first perfect hash. -/
theorem fast_hash_stale_cursor :
    layout_fast_hash [4, 8] 4 0 = some 1
    ∧ layout_fast_hash_spec [4, 8] 4 0 = some 2 := by
  decide

/-- Claim C6.  The claim fails on the code: in the diamond `A`;
`B (A)`; `C (A)`; `D (B, C)` (with `A` requesting 8 bytes), `B` and `C`
each get a layout whose table carries the inherited entry for `A`, but
constructing `D` never terminates: its two ancestor layouts both carry
`ly_order = 1`, so Hashed mode is selected with a `2 * order = 2`-slot
table, and `_layout_fast_hash` tries to place 3 identity keys into a 2-slot
scratch buffer — the `while (buf[position] > 0)` loop spins forever.  No
layout for `D` (with one entry for `A` or otherwise) is ever produced. -/
theorem diamond_construction_diverges :
    PyLayout_Create true true env1 tf0 1 [0] 0 5 = CreateResult.made laB
    ∧ PyLayout_Create true true env2 tf0 2 [0] 0 6 = CreateResult.made laC
    ∧ laB.entries.countP (fun e => e.le_type = some 0) = 1
    ∧ laC.entries.countP (fun e => e.le_type = some 0) = 1
    ∧ PyLayout_Create true true env3 tf0 3 [1, 2] 0 7 = CreateResult.diverge := by
  decide

/-- Claim C7.  The claim fails on the code: when `PyDict_New` fails inside
`_layout_collect`, the `NULL` dict is not checked by `_PyLayout_Create`;
`PyObject_Size(NULL)` yields -1, so with `size = 0` the computed `order` is
0 and the function returns `NULL`, which means "no layout required" — the
allocation failure is silently converted into absence instead of aborting
(with `size = 5` the same path crashes in
`_layout_check_ordered(NULL)`). -/
theorem dict_alloc_failure_silent :
    PyLayout_Create false true env0 tf0 0 [] 0 9 = CreateResult.noLayout
    ∧ PyLayout_Create false true env0 tf0 0 [] 5 9 = CreateResult.fatal := by
  decide

/-- A successful hashed probe only ever returns the offset of a slot whose
stored identity is exactly the requested type. -/
theorem probeLookup_some (entries : List LayoutEntry) (ty : Nat) (fuel pos : Nat)
    (off : Int) (h : probeLookup entries ty fuel pos = some off) :
    ∃ (i : Nat) (e : LayoutEntry),
      entries[i]? = some e ∧ e.le_type = some ty ∧ off = e.le_offset := by
  induction fuel generalizing pos with
  | zero => simp [probeLookup] at h
  | succ n ih =>
    rw [probeLookup] at h
    split at h
    · exact absurd h (by simp)
    · rename_i e hp
      split at h
      · rename_i hm
        exact ⟨pos, e, hp, hm, (Option.some_inj.mp h).symm⟩
      · exact ih _ h

/-- Claim C5.  `get_extension` returns not-found when either layout is
absent, and an address is only ever returned when the selected table slot
stores exactly the requested type's identity. -/
theorem getTypeData_exact_or_none (env : Nat → Option PyLayout) (obj : Obj) (ty : Nat) :
    ((env obj.ob_type = none ∨ env ty = none) → PyObject_GetTypeData env obj ty = none)
    ∧ (∀ r, PyObject_GetTypeData env obj ty = some r →
        ∃ (ol : PyLayout) (i : Nat) (e : LayoutEntry),
          env obj.ob_type = some ol ∧ ol.entries[i]? = some e
          ∧ e.le_type = some ty ∧ r = obj.addr + e.le_offset) := by
  constructor
  · intro h
    unfold PyObject_GetTypeData
    cases he : env obj.ob_type with
    | none => rfl
    | some ol =>
      cases ht : env ty with
      | none => rfl
      | some tl =>
        rw [he, ht] at h
        rcases h with h | h <;> exact absurd h (by simp)
  · intro r h
    unfold PyObject_GetTypeData at h
    split at h
    · rename_i ol tl he ht
      refine ⟨ol, ?_⟩
      split at h
      · unfold layout_cast_ordered at h
        split at h
        · exact absurd h (by simp)
        · rename_i e hp
          split at h
          · rename_i hty
            exact ⟨tl.ly_order, e, he, hp, hty, (Option.some_inj.mp h).symm⟩
          · exact absurd h (by simp)
      · unfold layout_cast_hash at h
        cases hp : probeLookup ol.entries ty ol.ly_search
            ((tl.ly_id >>> ol.ly_shift) % ol.entries.length) with
        | none => rw [hp] at h; exact absurd h (by simp)
        | some off =>
          rw [hp] at h
          obtain ⟨i, e, hie, hty, hoff⟩ := probeLookup_some _ _ _ _ _ hp
          refine ⟨i, e, he, hie, hty, ?_⟩
          have hr : r = obj.addr + off := by
            simpa using (Option.some_inj.mp h).symm
          rw [hr, hoff]
    · exact absurd h (by simp)

/-- Witness for claim C5: on the empty environment, looking anything up
returns not-found. -/
theorem getTypeData_exact_or_none_app : PyObject_GetTypeData env0 ⟨0, 0⟩ 0 = none :=
  (getTypeData_exact_or_none env0 ⟨0, 0⟩ 0).1 (Or.inl rfl)

/-- Claim C9.  Whenever `_PyLayout_Create` returns a layout, that layout's
`ly_order` is exactly 1: the `order` expression collapses ancestor count and
own size to 0 or 1, the 0 case returns `NULL`, and every other path stores
`order` into `ly_order`. -/
theorem create_order_always_one (dictOk layoutOk : Bool) (env : Nat → Option PyLayout)
    (tf : Nat → TypeFlags) (ty : Nat) (bases : List Nat) (size : Int) (id : Nat)
    (l : PyLayout)
    (h : PyLayout_Create dictOk layoutOk env tf ty bases size id = CreateResult.made l) :
    l.ly_order = 1 := by
  unfold PyLayout_Create at h
  by_cases hd : dictOk = false
  · rw [if_pos hd] at h
    split at h <;> exact absurd h (by simp)
  · rw [if_neg hd] at h
    simp only at h
    by_cases hp : ((layout_collect env bases).length : Int) + size > 0
    · rw [if_pos hp] at h
      rw [if_neg one_ne_zero] at h
      by_cases hl : layoutOk = false
      · rw [if_pos hl] at h
        exact absurd h (by simp)
      · rw [if_neg hl] at h
        split at h
        · injection h with h2
          subst h2
          rfl
        · split at h
          · exact absurd h (by simp)
          · split at h
            · exact absurd h (by simp)
            · injection h with h2
              subst h2
              rfl
    · rw [if_neg hp] at h
      rw [if_pos rfl] at h
      exact absurd h (by simp)

/-- Witness for claim C9: the layout built for type `A` has `ly_order = 1`. -/
theorem create_order_always_one_app : laA.ly_order = 1 :=
  create_order_always_one true true env0 tf0 0 [] 8 42 laA (by decide)

end LayoutModel

namespace LayoutModel

/-- Specification of the free-slot probe: a successful probe of cost `c`
lands `c - 1` steps from the start on a free slot, having skipped `c - 1`
occupied slots. -/
theorem probeFree_spec (entries : List LayoutEntry) :
    ∀ (fuel pos c p : Nat), probeFree entries fuel pos = some (c, p) →
      1 ≤ c ∧ c ≤ fuel ∧ p = stepN entries.length (c - 1) pos
      ∧ (∃ e, entries[p]? = some e ∧ e.le_type = none)
      ∧ (∀ j, j < c - 1 →
          ∃ e2, entries[stepN entries.length j pos]? = some e2 ∧ e2.le_type ≠ none) := by
  intro fuel
  induction fuel with
  | zero => intro pos c p h; simp [probeFree] at h
  | succ n ih =>
    intro pos c p h
    rw [probeFree] at h
    split at h
    · exact absurd h (by simp)
    · rename_i e he
      split at h
      · rename_i hfree
        simp only [Option.some.injEq, Prod.mk.injEq] at h
        obtain ⟨rfl, rfl⟩ := h
        refine ⟨le_refl 1, by omega, rfl, ⟨e, he, hfree⟩, ?_⟩
        intro j hj
        omega
      · rename_i hocc
        split at h
        · exact absurd h (by simp)
        · rename_i cp hrec
          simp only [Option.some.injEq, Prod.mk.injEq] at h
          obtain ⟨hc, hp⟩ := h
          obtain ⟨ih1, ih2, ih3, ih4, ih5⟩ :=
            ih (nextPos entries.length pos) cp.1 cp.2 (by rw [hrec])
          subst hc
          subst hp
          have hsucc : cp.1 - 1 + 1 = cp.1 := Nat.succ_pred_eq_of_pos ih1
          refine ⟨by omega, by omega, ?_, ih4, ?_⟩
          · have : stepN entries.length (cp.1 - 1 + 1) pos
                = stepN entries.length (cp.1 - 1) (nextPos entries.length pos) := by
              rw [stepN]
            rw [show cp.1 + 1 - 1 = cp.1 - 1 + 1 by omega, this]
            exact ih3
          · intro j hj
            cases j with
            | zero => exact ⟨e, he, hocc⟩
            | succ j2 =>
              have : stepN entries.length (j2 + 1) pos
                  = stepN entries.length j2 (nextPos entries.length pos) := by
                rw [stepN]
              rw [this]
              exact ih5 j2 (by omega)

/-- If the requested type sits `m` steps down the probe path and every
earlier slot holds a different identity, a lookup with more than `m` probes
of fuel returns its stored offset. -/
theorem probeLookup_finds (entries : List LayoutEntry) (ty : Nat) :
    ∀ (m fuel pos : Nat) (e : LayoutEntry),
      entries[stepN entries.length m pos]? = some e → e.le_type = some ty →
      (∀ j, j < m →
        ∃ e2, entries[stepN entries.length j pos]? = some e2 ∧ e2.le_type ≠ some ty) →
      m < fuel →
      probeLookup entries ty fuel pos = some e.le_offset := by
  intro m
  induction m with
  | zero =>
    intro fuel pos e he hty hocc hf
    cases fuel with
    | zero => omega
    | succ f =>
      have he2 : entries[pos]? = some e := he
      rw [probeLookup, he2]
      simp [hty]
  | succ m ih =>
    intro fuel pos e he hty hocc hf
    cases fuel with
    | zero => omega
    | succ f =>
      obtain ⟨e0, he0, hne0⟩ := hocc 0 (Nat.succ_pos m)
      have he0b : entries[pos]? = some e0 := he0
      rw [probeLookup, he0b]
      simp only [if_neg hne0]
      exact ih f (nextPos entries.length pos) e he hty
        (fun j hj => hocc (j + 1) (by omega)) (by omega)

/-- A successful lookup survives storing a differently-typed entry into a
free slot, with any amount of extra fuel. -/
theorem probeLookup_preserve (entries : List LayoutEntry) (ty : Nat) (q : Nat)
    (enew : LayoutEntry)
    (hq : ∀ e, entries[q]? = some e → e.le_type = none)
    (hnew : enew.le_type ≠ some ty) :
    ∀ (fuel fuel2 pos : Nat) (off : Int), fuel ≤ fuel2 →
      probeLookup entries ty fuel pos = some off →
      probeLookup (entries.set q enew) ty fuel2 pos = some off := by
  intro fuel
  induction fuel with
  | zero => intro fuel2 pos off _ h; simp [probeLookup] at h
  | succ n ih =>
    intro fuel2 pos off hf h
    cases fuel2 with
    | zero => omega
    | succ f2 =>
      rw [probeLookup] at h
      split at h
      · exact absurd h (by simp)
      · rename_i e he
        split at h
        · rename_i hty
          have hpq : q ≠ pos := by
            intro hh
            subst hh
            have hfree := hq e he
            rw [hfree] at hty
            exact absurd hty (by simp)
          have hset : (entries.set q enew)[pos]? = some e := by
            rw [List.getElem?_set_ne hpq]
            exact he
          rw [probeLookup, hset]
          simp only [if_pos hty]
          exact h
        · rename_i hty
          by_cases hpq : pos = q
          · subst hpq
            have hlt : pos < entries.length := by
              by_contra hge
              rw [List.getElem?_eq_none (by omega)] at he
              exact absurd he (by simp)
            have hset : (entries.set pos enew)[pos]? = some enew :=
              List.getElem?_set_eq_of_lt enew hlt
            rw [probeLookup, hset]
            simp only [if_neg hnew]
            rw [List.length_set]
            exact ih f2 (nextPos entries.length pos) off (by omega) h
          · have hset : (entries.set q enew)[pos]? = some e := by
              rw [List.getElem?_set_ne (fun hh => hpq hh.symm)]
              exact he
            rw [probeLookup, hset]
            simp only [if_neg hty]
            rw [List.length_set]
            exact ih f2 (nextPos entries.length pos) off (by omega) h

end LayoutModel

namespace LayoutModel

/-- Invariant maintained by `_layout_fill_hash` over the items inserted so
far: the table keeps its size, every occupied slot belongs to an inserted
item, and every inserted item sits within `ly_search` probes of its home
slot, where a bounded lookup finds it. -/
@[reducible]
def FillOk (hsize shift : Nat) (processed : List (Nat × PyLayout)) (st : HFillState) : Prop :=
  st.entries.length = hsize
  ∧ (∀ (i : Nat) (e : LayoutEntry) (t : Nat),
      st.entries[i]? = some e → e.le_type = some t → t ∈ processed.map Prod.fst)
  ∧ (∀ kv ∈ processed, ∃ (c : Nat) (e : LayoutEntry),
      1 ≤ c ∧ c ≤ st.search
      ∧ st.entries[stepN hsize (c - 1) ((kv.2.ly_id >>> shift) % hsize)]? = some e
      ∧ e.le_type = some kv.1
      ∧ probeLookup st.entries kv.1 st.search ((kv.2.ly_id >>> shift) % hsize)
          = some e.le_offset)

/-- One fill step preserves the invariant, extending it to the new item. -/
theorem fill_step_ok (hsize shift : Nat) (base : Int)
    (processed : List (Nat × PyLayout)) (st st2 : HFillState) (kv : Nat × PyLayout)
    (hinv : FillOk hsize shift processed st)
    (hnotin : kv.1 ∉ processed.map Prod.fst)
    (hstep : layout_fill_hash_step hsize shift base st kv = some st2) :
    FillOk hsize shift (processed ++ [kv]) st2 := by
  obtain ⟨hlen, htypes, hfind⟩ := hinv
  unfold layout_fill_hash_step at hstep
  split at hstep
  · exact absurd hstep (by simp)
  · rename_i cp hfree
    simp only [Option.some.injEq] at hstep
    obtain ⟨hc1, hcfuel, hpos, ⟨efree, hef, heftype⟩, hoccpath⟩ :=
      probeFree_spec st.entries hsize ((kv.2.ly_id >>> shift) % hsize) cp.1 cp.2
        (by rw [hfree])
    rw [hlen] at hpos
    have hlt : cp.2 < st.entries.length := by
      by_contra hge
      rw [List.getElem?_eq_none (by omega)] at hef
      exact absurd hef (by simp)
    have hqfree : ∀ e, st.entries[cp.2]? = some e → e.le_type = none := by
      intro e he
      rw [hef] at he
      cases he
      exact heftype
    subst hstep
    refine ⟨by simpa using hlen, ?_, ?_⟩
    · intro i e t hie ht
      by_cases hiq : i = cp.2
      · subst hiq
        rw [List.getElem?_set_eq_of_lt _ hlt] at hie
        cases hie
        simp only [Option.some.injEq] at ht
        subst ht
        simp
      · rw [List.getElem?_set_ne (fun hh => hiq hh.symm)] at hie
        have := htypes i e t hie ht
        simp only [List.map_append, List.mem_append]
        exact Or.inl this
    · intro kv2 hkv2
      rcases List.mem_append.mp hkv2 with hmem | hmem
      · obtain ⟨c, e, h1, h2, h3, h4, h5⟩ := hfind kv2 hmem
        have hne : kv2.1 ≠ kv.1 := by
          intro hh
          exact hnotin (hh ▸ List.mem_map_of_mem Prod.fst hmem)
        have hidx : stepN hsize (c - 1) ((kv2.2.ly_id >>> shift) % hsize) ≠ cp.2 := by
          intro hh
          rw [hh, hef] at h3
          cases h3
          rw [heftype] at h4
          exact absurd h4 (by simp)
        refine ⟨c, e, h1, le_trans h2 (by dsimp only; split <;> omega), ?_, h4, ?_⟩
        · dsimp only
          rw [List.getElem?_set_ne (fun hh => hidx hh.symm)]
          exact h3
        · dsimp only
          refine probeLookup_preserve st.entries kv2.1 cp.2 _ hqfree
            (by simpa using fun hh => hne hh.symm) st.search _ _ _
            (by split <;> omega) h5
      · have hkv : kv2 = kv := List.mem_singleton.mp hmem
        subst hkv
        refine ⟨cp.1, ⟨some kv2.1, -base - (st.offset + kv2.2.ly_extensionsize)⟩,
          hc1, by dsimp only; split <;> omega, ?_, rfl, ?_⟩
        · dsimp only
          rw [← hpos]
          exact List.getElem?_set_eq_of_lt _ hlt
        · dsimp only
          have hlen2 : (st.entries.set cp.2
              ⟨some kv2.1, -base - (st.offset + kv2.2.ly_extensionsize)⟩).length = hsize := by
            simpa using hlen
          refine probeLookup_finds _ kv2.1 (cp.1 - 1) _ _
            ⟨some kv2.1, -base - (st.offset + kv2.2.ly_extensionsize)⟩ ?_ rfl ?_ ?_
          · rw [hlen2, ← hpos]
            exact List.getElem?_set_eq_of_lt _ hlt
          · intro j hj
            have hocc2 := hoccpath j hj
            rw [hlen] at hocc2
            obtain ⟨e2, he2, he2occ⟩ := hocc2
            have hjq : stepN hsize j ((kv2.2.ly_id >>> shift) % hsize) ≠ cp.2 := by
              intro hh
              rw [hh, hef] at he2
              cases he2
              exact he2occ heftype
            obtain ⟨t, ht⟩ := Option.ne_none_iff_exists'.mp he2occ
            refine ⟨e2, ?_, ?_⟩
            · rw [hlen2]
              rw [List.getElem?_set_ne (fun hh => hjq hh.symm)]
              exact he2
            · rw [ht]
              intro hh
              simp only [Option.some.injEq] at hh
              exact hnotin (hh ▸ htypes _ e2 t he2 ht)
          · have : cp.1 ≤ if st.search < cp.1 then cp.1 else st.search := by
              split <;> omega
            omega

/-- Folding the fill step over a list of items with fresh, distinct keys
extends the invariant to all of them. -/
theorem fill_fold_ok (hsize shift : Nat) (base : Int) :
    ∀ (items processed : List (Nat × PyLayout)) (st st2 : HFillState),
      FillOk hsize shift processed st →
      (∀ k ∈ items.map Prod.fst, k ∉ processed.map Prod.fst) →
      (items.map Prod.fst).Nodup →
      items.foldl
        (fun acc kv => acc.bind (fun s => layout_fill_hash_step hsize shift base s kv))
        (some st) = some st2 →
      FillOk hsize shift (processed ++ items) st2 := by
  intro items
  induction items with
  | nil =>
    intro processed st st2 hinv _ _ hfold
    simp only [List.foldl_nil, Option.some.injEq] at hfold
    subst hfold
    simpa using hinv
  | cons kv rest ih =>
    intro processed st st2 hinv hfresh hnd hfold
    simp only [List.foldl_cons, Option.some_bind] at hfold
    cases hstep : layout_fill_hash_step hsize shift base st kv with
    | none =>
      rw [hstep] at hfold
      have hnone : ∀ (l : List (Nat × PyLayout)),
          l.foldl (fun acc kv2 =>
            acc.bind (fun s => layout_fill_hash_step hsize shift base s kv2))
            none = none := by
        intro l
        induction l with
        | nil => rfl
        | cons x xs ihl => simpa using ihl
      rw [hnone rest] at hfold
      exact absurd hfold (by simp)
    | some st1 =>
      rw [hstep] at hfold
      have hinv1 := fill_step_ok hsize shift base processed st st1 kv hinv
        (hfresh kv.1 (by simp)) hstep
      simp only [List.map_cons, List.nodup_cons] at hnd
      have hfr : ∀ k ∈ rest.map Prod.fst, k ∉ (processed ++ [kv]).map Prod.fst := by
        intro k hk
        simp only [List.map_append, List.mem_append]
        rintro (hk2 | hk2)
        · exact hfresh k (by simp [hk]) hk2
        · simp only [List.map_cons, List.map_nil, List.mem_singleton] at hk2
          exact hnd.1 (hk2 ▸ hk)
      have hres := ih (processed ++ [kv]) st1 st2 hinv1 hfr hnd.2 hfold
      rwa [List.append_assoc] at hres

/-- Claim C3.  Confirmed: for every Hashed-mode fill that completes, every
entry placed during construction lies within `ly_search` (= `max_probe`)
linear-probe steps, with wraparound, of its home slot
`(ly_id >> shift) mod table_size`, and a hashed lookup for that entry's
exact type on the resulting layout returns `base_address + stored offset`. -/
theorem fill_hash_entries_reachable (hsize shift : Nat) (base : Int)
    (items : List (Nat × PyLayout)) (st : HFillState)
    (hnd : (items.map Prod.fst).Nodup)
    (hfill : layout_fill_hash hsize shift base items = some st) :
    ∀ kv ∈ items, ∃ (c : Nat) (e : LayoutEntry),
      1 ≤ c ∧ c ≤ st.search
      ∧ st.entries[stepN hsize (c - 1) ((kv.2.ly_id >>> shift) % hsize)]? = some e
      ∧ e.le_type = some kv.1
      ∧ ∀ (l : PyLayout) (obj : Obj),
          l.entries = st.entries → l.ly_shift = shift → l.ly_search = st.search →
          layout_cast_hash l kv.2 obj kv.1 = some (obj.addr + e.le_offset) := by
  intro kv hkv
  have hinit : FillOk hsize shift [] ⟨List.replicate hsize ⟨none, 0⟩, 1, 0⟩ := by
    refine ⟨by simp, ?_, by simp⟩
    intro i e t hie ht
    rw [List.getElem?_replicate] at hie
    by_cases hlt : i < hsize
    · rw [if_pos hlt] at hie
      cases hie
      exact absurd ht (by simp)
    · rw [if_neg hlt] at hie
      exact absurd hie (by simp)
  have hall := fill_fold_ok hsize shift base items [] _ st hinit
    (by simp) hnd hfill
  obtain ⟨c, e, h1, h2, h3, h4, h5⟩ := (hall.2.2) kv (by simpa using hkv)
  have hlen := hall.1
  refine ⟨c, e, h1, h2, h3, h4, ?_⟩
  intro l obj hle hls hse
  unfold layout_cast_hash
  rw [hle, hls, hse, hlen, h5]
  rfl

/-- Witness for claim C3: filling a 2-slot table with the single item
`(type 0, laA)` at shift 0 places it at its home slot, and the bounded
lookup finds it. -/
theorem fill_hash_entries_reachable_app :
    ∃ (c : Nat) (e : LayoutEntry),
      1 ≤ c ∧ c ≤ (1 : Nat)
      ∧ ([(⟨some 0, -8⟩ : LayoutEntry), ⟨none, 0⟩])[stepN 2 (c - 1) ((laA.ly_id >>> 0) % 2)]?
          = some e
      ∧ e.le_type = some 0
      ∧ ∀ (l : PyLayout) (obj : Obj),
          l.entries = [(⟨some 0, -8⟩ : LayoutEntry), ⟨none, 0⟩] → l.ly_shift = 0 →
          l.ly_search = 1 →
          layout_cast_hash l laA obj 0 = some (obj.addr + e.le_offset) :=
  fill_hash_entries_reachable 2 0 0 [(0, laA)] ⟨[⟨some 0, -8⟩, ⟨none, 0⟩], 1, 8⟩
    (by decide) (by decide) (0, laA) (by decide)

end LayoutModel

namespace LayoutModel

/-- A store of layout objects addressed by `Nat` pointers, for the
frame-effect properties: every C store statement becomes an update at an
explicit address. -/
def Heap : Type := Nat → Option PyLayout

/-- Raw store update. -/
def heapUpdate (h : Heap) (a : Nat) (v : Option PyLayout) : Heap :=
  fun x => if x = a then v else h x

/-- Read a layout through a pointer (total: callers only dereference live
pointers, per the C calling contracts). -/
def readL (h : Heap) (a : Nat) : PyLayout :=
  (h a).getD default

/-- A field store through a pointer: `a->field = ...`. -/
def hUpd (h : Heap) (a : Nat) (f : PyLayout → PyLayout) : Heap :=
  heapUpdate h a (some (f (readL h a)))

/-- Embedding of `_layout_collect` at the store level: the dict maps each base type whose
`tp_cache` is non-NULL to that pointer (no heap reads or writes). -/
def collectH (lof : Nat → Option Nat) (bases : List Nat) : List (Nat × Nat) :=
  bases.foldl
    (fun d b =>
      match lof b with
      | some a => dictSet d b a
      | none => d)
    []

/-- Embedding of `_layout_fill_ordered` at the store level: each iteration reads the
sub-layout through its pointer at loop time and writes the fresh layout's
table, then the accumulated size is stored into `ly_allocsize`. -/
def fill_orderedH (fresh : Nat) (base : Int) :
    List (Nat × Nat) → Heap → Int → Heap
  | [], h, off => hUpd h fresh (fun l => { l with ly_allocsize := off })
  | kv :: rest, h, off =>
    let sub := readL h kv.2
    let off2 := off + sub.ly_extensionsize
    let h2 := hUpd h fresh (fun l =>
      { l with entries := l.entries.set sub.ly_order ⟨some kv.1, -base - off2⟩ })
    fill_orderedH fresh base rest h2 off2

/-- Embedding of `_layout_fill_hash` at the store level; `none` is the C looping forever
on a full table.  Aliasing is exact: when the new layout was added to the
dict, its item reads the current state of `fresh`. -/
def fill_hashH (fresh : Nat) (base : Int) (shift hsize : Nat) :
    List (Nat × Nat) → Heap → Int → Option Heap
  | [], h, off => some (hUpd h fresh (fun l => { l with ly_allocsize := off }))
  | kv :: rest, h, off =>
    let sub := readL h kv.2
    let lay := readL h fresh
    match probeFree lay.entries hsize ((sub.ly_id >>> shift) % hsize) with
    | none => none
    | some cp =>
      let h1 := if lay.ly_search < cp.1 then
          hUpd h fresh (fun l => { l with ly_search := cp.1 }) else h
      let off2 := off + sub.ly_extensionsize
      let h2 := hUpd h1 fresh (fun l =>
        { l with entries := l.entries.set cp.2 ⟨some kv.1, -base - off2⟩ })
      fill_hashH fresh base shift hsize rest h2 off2

/-- Embedding of `_PyLayout_Create` at the store level (allocations succeed).  The new
layout is allocated at the fresh address `fresh`; the C's one-field-at-a-time
prologue stores are summarised by their net effect, a single store of the
fully initialised pre-fill record (nothing reads `fresh` in between); the
fill loops then write through `fresh` exactly as the C does.  Returns the
final store and the returned pointer, or `none` when the C never returns. -/
def createH (h : Heap) (lof : Nat → Option Nat) (tf : Nat → TypeFlags)
    (ty : Nat) (bases : List Nat) (size : Int) (id : Nat) (fresh : Nat) :
    Option (Heap × Option Nat) :=
  let layouts := collectH lof bases
  let order : Nat := if ((layouts.length : Int) + size > 0) then 1 else 0
  if order = 0 then some (h, none)
  else if layout_check_ordered (layouts.map (fun kv => readL h kv.2)) then
    let nslots := order
    let lay0 : PyLayout :=
      ⟨0, size, CastMode.ordered, id, order, 0, 1, List.replicate nslots ⟨none, 0⟩⟩
    let h1 := heapUpdate h fresh (some lay0)
    let layouts2 := if 0 < size then dictSet layouts ty fresh else layouts
    some (fill_orderedH fresh (layout_base (tf ty)) layouts2 h1 0, some fresh)
  else
    let nslots := order * 2
    match layout_fast_hash (layouts.map (fun kv => (readL h kv.2).ly_id)) nslots id with
    | none => none
    | some shift =>
      let lay0 : PyLayout :=
        ⟨0, size, CastMode.hashed, id, order, shift, 1, List.replicate nslots ⟨none, 0⟩⟩
      let h1 := heapUpdate h fresh (some lay0)
      let layouts2 := if 0 < size then dictSet layouts ty fresh else layouts
      match fill_hashH fresh (layout_base (tf ty)) shift nslots layouts2 h1 0 with
      | none => none
      | some h2 => some (h2, some fresh)

/-- Embedding of `PyObject_GetTypeData` at the store level: pointer loads from
`tp_cache`, heap reads, dispatch — and the store it returns, which is the
store it was given, since no statement on the lookup path writes memory. -/
def PyObject_GetTypeDataH (h : Heap) (lof : Nat → Option Nat) (obj : Obj)
    (ty : Nat) : Option Int × Heap :=
  match lof obj.ob_type, lof ty with
  | some oa, some ta =>
    let ol := readL h oa
    let tl := readL h ta
    ((match ol.ly_cast with
      | CastMode.ordered => layout_cast_ordered ol tl obj ty
      | CastMode.hashed => layout_cast_hash ol tl obj ty), h)
  | _, _ => (none, h)

theorem heapUpdate_ne (h : Heap) (a x : Nat) (v : Option PyLayout) (hx : x ≠ a) :
    heapUpdate h a v x = h x := by
  unfold heapUpdate
  exact if_neg hx

theorem hUpd_ne (h : Heap) (a x : Nat) (f : PyLayout → PyLayout) (hx : x ≠ a) :
    hUpd h a f x = h x :=
  heapUpdate_ne h a x _ hx

/-- The ordered fill writes only through the fresh pointer. -/
theorem fill_orderedH_frame (fresh : Nat) (base : Int) :
    ∀ (items : List (Nat × Nat)) (h : Heap) (off : Int) (x : Nat), x ≠ fresh →
      fill_orderedH fresh base items h off x = h x := by
  intro items
  induction items with
  | nil =>
    intro h off x hx
    exact hUpd_ne h fresh x _ hx
  | cons kv rest ih =>
    intro h off x hx
    rw [fill_orderedH]
    rw [ih _ _ x hx]
    exact hUpd_ne h fresh x _ hx

/-- The hashed fill writes only through the fresh pointer. -/
theorem fill_hashH_frame (fresh : Nat) (base : Int) (shift hsize : Nat) :
    ∀ (items : List (Nat × Nat)) (h : Heap) (off : Int) (h2 : Heap) (x : Nat),
      fill_hashH fresh base shift hsize items h off = some h2 → x ≠ fresh →
      h2 x = h x := by
  intro items
  induction items with
  | nil =>
    intro h off h2 x hf hx
    simp only [fill_hashH, Option.some.injEq] at hf
    subst hf
    exact hUpd_ne h fresh x _ hx
  | cons kv rest ih =>
    intro h off h2 x hf hx
    rw [fill_hashH] at hf
    split at hf
    · exact absurd hf (by simp)
    · rename_i cp hcp
      rw [ih _ _ _ x hf hx]
      rw [hUpd_ne _ fresh x _ hx]
      split
      · exact hUpd_ne h fresh x _ hx
      · rfl

/-- Whatever `_PyLayout_Create` does, every store it performs targets the
freshly allocated layout. -/
theorem createH_frame (h : Heap) (lof : Nat → Option Nat) (tf : Nat → TypeFlags)
    (ty : Nat) (bases : List Nat) (size : Int) (id : Nat) (fresh : Nat)
    (p : Heap × Option Nat) (x : Nat)
    (hc : createH h lof tf ty bases size id fresh = some p) (hx : x ≠ fresh) :
    p.1 x = h x := by
  unfold createH at hc
  simp only at hc
  by_cases hp : ((collectH lof bases).length : Int) + size > 0
  · rw [if_pos hp] at hc
    rw [if_neg one_ne_zero] at hc
    split at hc
    · simp only [Option.some.injEq] at hc
      subst hc
      dsimp only
      rw [fill_orderedH_frame fresh _ _ _ _ x hx]
      exact heapUpdate_ne h fresh x _ hx
    · split at hc
      · exact absurd hc (by simp)
      · split at hc
        · exact absurd hc (by simp)
        · rename_i shift hshift h2 hfill
          simp only [Option.some.injEq] at hc
          subst hc
          dsimp only
          rw [fill_hashH_frame fresh _ _ _ _ _ _ _ x hfill hx]
          exact heapUpdate_ne h fresh x _ hx
  · rw [if_neg hp] at hc
    rw [if_pos rfl] at hc
    simp only [Option.some.injEq] at hc
    subst hc
    rfl

/-- Claim C10.  Confirmed: `_PyLayout_Create` never modifies a pre-existing
ancestor layout.  If `fresh` is a fresh address and `a` holds any existing
layout `l`, then after construction (whenever it terminates) `a` still holds
exactly `l` — all fields and all table entries unchanged — because every
store targets the fresh layout; ancestor layouts are only read. -/
theorem createH_preserves_ancestors (h : Heap) (lof : Nat → Option Nat)
    (tf : Nat → TypeFlags) (ty : Nat) (bases : List Nat) (size : Int)
    (id fresh a : Nat) (l : PyLayout)
    (hfresh : h fresh = none) (hanc : h a = some l) :
    (createH h lof tf ty bases size id fresh).map (fun p => p.1 a) = some (some l)
    ∨ createH h lof tf ty bases size id fresh = none := by
  cases hc : createH h lof tf ty bases size id fresh with
  | none => exact Or.inr rfl
  | some p =>
    left
    have hax : a ≠ fresh := by
      intro hh
      rw [hh, hfresh] at hanc
      exact absurd hanc (by simp)
    rw [Option.map_some']
    rw [createH_frame h lof tf ty bases size id fresh p a hc hax, hanc]

/-- Store and pointer map for the C10 witness: `A`'s layout lives at
address 5, type `A = 0` points at it. -/
def heapC10 : Heap := fun a => if a = 5 then some laA else none

/-- The `tp_cache` pointer map for the C10 witness. -/
def lofC10 : Nat → Option Nat := fun t => if t = 0 then some 5 else none

/-- Witness for claim C10: constructing `B (A)` at fresh address 9 leaves
`A`'s layout at address 5 untouched. -/
theorem createH_preserves_ancestors_app :
    (createH heapC10 lofC10 tf0 1 [0] 16 43 9).map (fun p => p.1 5) = some (some laA)
    ∨ createH heapC10 lofC10 tf0 1 [0] 16 43 9 = none :=
  createH_preserves_ancestors heapC10 lofC10 tf0 1 [0] 16 43 9 5 laA rfl rfl

/-- Claim C8.  Confirmed: a lookup returns the store unchanged, and an
immediately repeated lookup with the same `(obj, T)` returns the identical
result — the lookup path reads only construction-time state and performs no
store. -/
theorem getTypeDataH_repeatable (h : Heap) (lof : Nat → Option Nat) (obj : Obj)
    (ty : Nat) :
    (PyObject_GetTypeDataH h lof obj ty).2 = h
    ∧ PyObject_GetTypeDataH (PyObject_GetTypeDataH h lof obj ty).2 lof obj ty
        = PyObject_GetTypeDataH h lof obj ty := by
  have hsnd : (PyObject_GetTypeDataH h lof obj ty).2 = h := by
    unfold PyObject_GetTypeDataH
    split <;> rfl
  exact ⟨hsnd, by rw [hsnd]⟩

end LayoutModel
